import Mathlib

/-!
# Verification of the mock HTTP connector's matching engine and virtual transport

Shallow embedding of the crate's core: the JSON containment check
(`handler/with/json.rs`), the structured matcher (`handler/with/mod.rs`),
the dispatch and checkpoint algorithms (`connector.rs`), and the virtual
duplex transport state machine (`stream.rs`).  External collaborators
(httparse, serde_json's string parser, UTF-8 decoding, URI merging) are
passed in as oracle parameters; everything the crate itself computes is
translated directly from the source.
-/

namespace MockHttp

/-! ## JSON values (model of `serde_json::Value` as used by `handler/with/json.rs`)

Numbers are modelled as integers: the crate only ever compares numbers for
equality, and every claim instance uses integer literals.  Objects are
association lists in canonical (`serde_json::Map`) form: unique keys, and
`jsonLookup` is the map's `get`. -/

inductive Json where
  | null
  | bool (b : Bool)
  | num (n : Int)
  | str (s : String)
  | arr (vs : List Json)
  | obj (kvs : List (String × Json))

/-- `serde_json::Map::get`: the value bound to `k`, if any. -/
def jsonLookup (kvs : List (String × Json)) (k : String) : Option Json :=
  match kvs with
  | [] => none
  | kv :: rest => if kv.1 = k then some kv.2 else jsonLookup rest k

mutual
/-- `JsonEq::json_eq` from `handler/with/json.rs`: one-directional containment.
Arrays: every element of `self` must be `json_eq` to some element of `other`
(`impl JsonEq for Vec<Value>`).  Objects: every key of `self` must be present
in `other` with a `json_eq` value (`impl JsonEq for Map<String, Value>`).
All other values are compared with `==` (full structural equality). -/
def jsonEq : Json → Json → Bool
  | .arr vs, other =>
    match other with
    | .arr os => jsonEqArr vs os
    | _ => false
  | .obj kvs, other =>
    match other with
    | .obj os => jsonEqObj kvs os
    | _ => false
  | .null, other =>
    match other with
    | .null => true
    | _ => false
  | .bool b, other =>
    match other with
    | .bool b' => b == b'
    | _ => false
  | .num n, other =>
    match other with
    | .num n' => n == n'
    | _ => false
  | .str s, other =>
    match other with
    | .str s' => s == s'
    | _ => false

/-- The `'outer` loop of `impl JsonEq for Vec<Value>`. -/
def jsonEqArr : List Json → List Json → Bool
  | [], _ => true
  | v :: vs, os => jsonEqAny v os && jsonEqArr vs os

/-- The inner loop of `impl JsonEq for Vec<Value>`: some element of `os`
contains `v`. -/
def jsonEqAny : Json → List Json → Bool
  | _, [] => false
  | v, o :: os => jsonEq v o || jsonEqAny v os

/-- The loop of `impl JsonEq for Map<String, Value>`. -/
def jsonEqObj : List (String × Json) → List (String × Json) → Bool
  | [], _ => true
  | (k, v) :: kvs, os =>
    (match jsonLookup os k with
     | some ov => jsonEq v ov
     | none => false) && jsonEqObj kvs os
end

mutual
/-- `serde_json::Value`'s `PartialEq`: full structural equality (arrays
pointwise, maps entry-by-entry in canonical form). -/
def jsonBeq : Json → Json → Bool
  | .null, other =>
    match other with
    | .null => true
    | _ => false
  | .bool b, other =>
    match other with
    | .bool b' => b == b'
    | _ => false
  | .num n, other =>
    match other with
    | .num n' => n == n'
    | _ => false
  | .str s, other =>
    match other with
    | .str s' => s == s'
    | _ => false
  | .arr vs, other =>
    match other with
    | .arr os => jsonBeqList vs os
    | _ => false
  | .obj kvs, other =>
    match other with
    | .obj os => jsonBeqObjList kvs os
    | _ => false

/-- Pointwise equality of JSON arrays. -/
def jsonBeqList : List Json → List Json → Bool
  | [], [] => true
  | v :: vs, o :: os => jsonBeq v o && jsonBeqList vs os
  | _, _ => false

/-- Entrywise equality of JSON objects in canonical form. -/
def jsonBeqObjList : List (String × Json) → List (String × Json) → Bool
  | [], [] => true
  | (k, v) :: kvs, (k', v') :: os => k == k' && jsonBeq v v' && jsonBeqObjList kvs os
  | _, _ => false
end

lemma jsonBeqList_iff (vs os : List Json)
    (ih : ∀ v ∈ vs, ∀ b, jsonBeq v b = true ↔ v = b) :
    jsonBeqList vs os = true ↔ vs = os := by
  induction vs generalizing os with
  | nil => cases os <;> simp [jsonBeqList]
  | cons v vs ihl =>
    cases os with
    | nil => simp [jsonBeqList]
    | cons o os =>
      have hv := ih v (by simp) o
      have hrest := ihl os (fun v' hv' b => ih v' (List.mem_cons_of_mem _ hv') b)
      simp [jsonBeqList, hv, hrest]

lemma jsonBeqObjList_iff (kvs os : List (String × Json))
    (ih : ∀ kv ∈ kvs, ∀ b, jsonBeq kv.2 b = true ↔ kv.2 = b) :
    jsonBeqObjList kvs os = true ↔ kvs = os := by
  induction kvs generalizing os with
  | nil => cases os <;> simp [jsonBeqObjList]
  | cons kv kvs ihl =>
    obtain ⟨k, v⟩ := kv
    cases os with
    | nil => simp [jsonBeqObjList]
    | cons o os =>
      obtain ⟨k', v'⟩ := o
      have hv := ih (k, v) (by simp) v'
      have hrest := ihl os (fun kv' hkv' b => ih kv' (List.mem_cons_of_mem _ hkv') b)
      simp [jsonBeqObjList, hv, hrest, Prod.mk.injEq, and_assoc]

/-- `jsonBeq` is exactly structural equality: the model of `Value`'s
`PartialEq` decides `=`. -/
theorem jsonBeq_iff : ∀ (a b : Json), jsonBeq a b = true ↔ a = b := by
  have H : ∀ (n : Nat) (a b : Json), sizeOf a ≤ n → (jsonBeq a b = true ↔ a = b) := by
    intro n
    induction n with
    | zero =>
      intro a b h
      exfalso
      cases a <;> simp at h
    | succ n ih =>
      intro a b h
      cases a with
      | arr vs =>
        cases b
        case arr os =>
          have hIH : ∀ v ∈ vs, ∀ b, jsonBeq v b = true ↔ v = b := by
            intro v hv b
            apply ih
            have h1 := List.sizeOf_lt_of_mem hv
            have h2 : sizeOf (Json.arr vs) = 1 + sizeOf vs := by simp
            omega
          simpa [jsonBeq] using jsonBeqList_iff vs os hIH
        all_goals simp [jsonBeq]
      | obj kvs =>
        cases b
        case obj os =>
          have hIH : ∀ kv ∈ kvs, ∀ b, jsonBeq kv.2 b = true ↔ kv.2 = b := by
            intro kv hkv b
            apply ih
            have h1 := List.sizeOf_lt_of_mem hkv
            have h2 : sizeOf (Json.obj kvs) = 1 + sizeOf kvs := by simp
            have h3 : sizeOf kv.2 < sizeOf kv := by
              obtain ⟨k, v⟩ := kv
              simp only [Prod.mk.sizeOf_spec]
              omega
            omega
          simpa [jsonBeq] using jsonBeqObjList_iff kvs os hIH
        all_goals simp [jsonBeq]
      | null => cases b <;> simp [jsonBeq]
      | bool x => cases b <;> simp [jsonBeq]
      | num x => cases b <;> simp [jsonBeq]
      | str s => cases b <;> simp [jsonBeq]
  intro a b
  exact H (sizeOf a) a b le_rfl

/-- Structural JSON equality is symmetric. -/
theorem jsonBeq_comm (a b : Json) : jsonBeq a b = jsonBeq b a := by
  by_cases hab : a = b
  · subst hab; rfl
  · have h1 : ¬ jsonBeq a b = true := fun h => hab ((jsonBeq_iff a b).1 h)
    have h2 : ¬ jsonBeq b a = true := fun h => hab (((jsonBeq_iff b a).1 h).symm)
    simp only [Bool.not_eq_true] at h1 h2
    rw [h1, h2]

instance : DecidableEq Json := fun a b => decidable_of_iff _ (jsonBeq_iff a b)

/-- Specification-level containment, written from the spec's words with the
array clause amended: an object is contained if every one of its key/value
pairs is present in the actual object with a recursively contained value; an
array is contained if every expected element is recursively contained in at
least one element of the actual array; leaves are compared by equality. -/
def JsonContains : Json → Json → Prop
  | .arr vs, other =>
    match other with
    | .arr os => ∀ v ∈ vs, ∃ o ∈ os, JsonContains v o
    | _ => False
  | .obj kvs, other =>
    match other with
    | .obj os => ∀ kv ∈ kvs, ∃ ov, jsonLookup os kv.1 = some ov ∧ JsonContains kv.2 ov
    | _ => False
  | a, other => a = other
termination_by a _ => sizeOf a
decreasing_by
  · simp_wf
    rename_i hv
    have := List.sizeOf_lt_of_mem hv
    omega
  · simp_wf
    rename_i hkv
    have h1 := List.sizeOf_lt_of_mem hkv
    have h2 : sizeOf kv.2 < sizeOf kv := by
      obtain ⟨k, v⟩ := kv
      simp only [Prod.mk.sizeOf_spec]
      omega
    omega

/-- The claim's containment wording, as stated: object pairs must be
recursively present, but an expected array element must have at least one
EQUAL element in the actual array. -/
def JsonContainsClaim : Json → Json → Prop
  | .arr vs, other =>
    match other with
    | .arr os => ∀ v ∈ vs, ∃ o ∈ os, o = v
    | _ => False
  | .obj kvs, other =>
    match other with
    | .obj os => ∀ kv ∈ kvs, ∃ ov, jsonLookup os kv.1 = some ov ∧ JsonContainsClaim kv.2 ov
    | _ => False
  | a, other => a = other
termination_by a _ => sizeOf a
decreasing_by
  simp_wf
  rename_i hkv
  have h1 := List.sizeOf_lt_of_mem hkv
  have h2 : sizeOf kv.2 < sizeOf kv := by
    obtain ⟨k, v⟩ := kv
    simp only [Prod.mk.sizeOf_spec]
    omega
  omega

lemma jsonEqAny_iff (v : Json) (os : List Json) :
    jsonEqAny v os = true ↔ ∃ o ∈ os, jsonEq v o = true := by
  induction os with
  | nil => simp [jsonEqAny]
  | cons o os ih => simp [jsonEqAny, Bool.or_eq_true, ih]

lemma jsonEqArr_iff (vs os : List Json) :
    jsonEqArr vs os = true ↔ ∀ v ∈ vs, jsonEqAny v os = true := by
  induction vs with
  | nil => simp [jsonEqArr]
  | cons v vs ih => simp [jsonEqArr, Bool.and_eq_true, ih]

lemma jsonEqObj_iff (kvs os : List (String × Json)) :
    jsonEqObj kvs os = true ↔
      ∀ kv ∈ kvs, ∃ ov, jsonLookup os kv.1 = some ov ∧ jsonEq kv.2 ov = true := by
  induction kvs with
  | nil => simp [jsonEqObj]
  | cons kv kvs ih =>
    obtain ⟨k, v⟩ := kv
    cases h : jsonLookup os k with
    | none => simp [jsonEqObj, h, ih]
    | some ov => simp [jsonEqObj, h, ih]

/-- `json_eq` is exactly the spec-level containment relation (with recursive
containment, not equality, at array elements). -/
theorem jsonEq_iff_contains : ∀ (a b : Json), jsonEq a b = true ↔ JsonContains a b := by
  have H : ∀ (n : Nat) (a b : Json), sizeOf a ≤ n → (jsonEq a b = true ↔ JsonContains a b) := by
    intro n
    induction n with
    | zero =>
      intro a b h
      exfalso
      cases a <;> simp at h
    | succ n ih =>
      intro a b h
      cases a with
      | arr vs =>
        have hsz : ∀ v ∈ vs, sizeOf v ≤ n := by
          intro v hv
          have h1 := List.sizeOf_lt_of_mem hv
          have h2 : sizeOf (Json.arr vs) = 1 + sizeOf vs := by simp
          omega
        cases b
        case arr os =>
          rw [show jsonEq (Json.arr vs) (Json.arr os) = jsonEqArr vs os by simp [jsonEq]]
          rw [jsonEqArr_iff]
          rw [show JsonContains (Json.arr vs) (Json.arr os) ↔
              ∀ v ∈ vs, ∃ o ∈ os, JsonContains v o by rw [JsonContains]]
          constructor
          · intro hall v hv
            obtain ⟨o, ho, heq⟩ := (jsonEqAny_iff v os).1 (hall v hv)
            exact ⟨o, ho, (ih v o (hsz v hv)).1 heq⟩
          · intro hall v hv
            obtain ⟨o, ho, hc⟩ := hall v hv
            exact (jsonEqAny_iff v os).2 ⟨o, ho, (ih v o (hsz v hv)).2 hc⟩
        all_goals simp [jsonEq, JsonContains]
      | obj kvs =>
        have hsz : ∀ kv ∈ kvs, sizeOf kv.2 ≤ n := by
          intro kv hkv
          have h1 := List.sizeOf_lt_of_mem hkv
          have h2 : sizeOf (Json.obj kvs) = 1 + sizeOf kvs := by simp
          have h3 : sizeOf kv.2 < sizeOf kv := by
            obtain ⟨k, v⟩ := kv
            simp only [Prod.mk.sizeOf_spec]
            omega
          omega
        cases b
        case obj os =>
          rw [show jsonEq (Json.obj kvs) (Json.obj os) = jsonEqObj kvs os by simp [jsonEq]]
          rw [jsonEqObj_iff]
          rw [show JsonContains (Json.obj kvs) (Json.obj os) ↔
              ∀ kv ∈ kvs, ∃ ov, jsonLookup os kv.1 = some ov ∧ JsonContains kv.2 ov by
            rw [JsonContains]]
          constructor
          · intro hall kv hkv
            obtain ⟨ov, hov, heq⟩ := hall kv hkv
            exact ⟨ov, hov, (ih kv.2 ov (hsz kv hkv)).1 heq⟩
          · intro hall kv hkv
            obtain ⟨ov, hov, hc⟩ := hall kv hkv
            exact ⟨ov, hov, (ih kv.2 ov (hsz kv hkv)).2 hc⟩
        all_goals simp [jsonEq, JsonContains]
      | null => cases b <;> simp [jsonEq, JsonContains]
      | bool x => cases b <;> simp [jsonEq, JsonContains]
      | num x => cases b <;> simp [jsonEq, JsonContains]
      | str s => cases b <;> simp [jsonEq, JsonContains]
  intro a b
  exact H (sizeOf a) a b le_rfl

/-! ## HTTP requests and responses (hyper's `Request<String>` / `Response<String>`)

Headers are multimaps: lists of name/value pairs in insertion order, with
duplicate names allowed, as in hyper's `HeaderMap`. -/

structure HttpRequest where
  method : String
  uri : String
  headers : List (String × String)
  body : String
deriving DecidableEq, Repr

structure HttpResponse where
  status : Nat
  headers : List (String × String)
  body : String
deriving DecidableEq, Repr

/-- `HeaderMap::get_all`: all values bound to `key`, in insertion order. -/
def getAll (headers : List (String × String)) (key : String) : List String :=
  headers.filterMap (fun kv => if kv.1 = key then some kv.2 else none)

/-! ## Mismatch reasons and reports (`handler/with/report.rs`) -/

inductive Reason where
  | method
  | uri
  | header (name : String)
  | body
deriving DecidableEq, Repr

/-- `Report`: a match, or a mismatch with a set of reasons (the Rust side
stores a `HashSet<Reason>`). -/
inductive Report where
  | isMatch
  | mismatch (reasons : Finset Reason)
deriving DecidableEq

/-- `impl From<Vec<Reason>> for Report`: empty vector means match. -/
def Report.ofReasons (rs : List Reason) : Report :=
  if rs = [] then .isMatch else .mismatch rs.toFinset

/-- `impl From<bool> for Report`. -/
def Report.ofBool (b : Bool) : Report :=
  if b then .isMatch else .mismatch ∅

/-! ## The structured matcher (`handler/with/mod.rs`) -/

inductive HeaderCheck where
  | atLeastOnce (value : String)
  | exactlyOnce (value : String)
  | all (values : List String)
deriving DecidableEq, Repr

/-- `check_headers` from `handler/with/mod.rs`: check the request's values
for `key` against one `HeaderCheck`.  `itertools::sorted` is
`List.mergeSort` under the value ordering. -/
def check_headers (reqHeaders : List (String × String)) (key : String)
    (value : HeaderCheck) : Bool :=
  let reqValues := getAll reqHeaders key
  match value with
  | .atLeastOnce v => reqValues.any (fun rv => v == rv)
  | .exactlyOnce v =>
    decide (reqValues.foldl (fun acc rv => (acc.1 + 1, acc.2 || v == rv))
      ((0 : Nat), false) = (1, true))
  | .all vs =>
    decide (reqValues.mergeSort (fun a b => a ≤ b) = vs.mergeSort (fun a b => a ≤ b))

/-- The crate's `Body` enum (body constraint of a case): exact string,
exact JSON, or partial JSON (`Body::JsonPartial`, here `jsonContained`). -/
inductive Body where
  | str (s : String)
  | json (v : Json)
  | jsonContained (v : Json)
deriving DecidableEq

structure WithHandler where
  uri : Option String
  method : Option String
  headers : List (String × HeaderCheck)
  body : Option Body

/-- The body of `impl With for WithHandler`, producing the `Vec<Reason>`
accumulated by the sequence of checks: method, then URI, then each header
constraint in declaration order, then the body constraint.  `jsonParse`
models the external `serde_json::from_str`; its error propagates through
the `?` operator exactly as in the source. -/
def WithHandler.withReasons (jsonParse : String → Except String Json)
    (h : WithHandler) (req : HttpRequest) : Except String (List Reason) := do
  let reasons₁ :=
    match h.method with
    | some m => if m ≠ req.method then [Reason.method] else []
    | none => []
  let reasons₂ := reasons₁ ++
    (match h.uri with
     | some u => if u ≠ req.uri then [Reason.uri] else []
     | none => [])
  let reasons₃ := reasons₂ ++
    h.headers.filterMap (fun kv =>
      if check_headers req.headers kv.1 kv.2 then none else some (Reason.header kv.1))
  match h.body with
  | some (.str b) => pure (reasons₃ ++ if b ≠ req.body then [Reason.body] else [])
  | some (.json b) => do
    let payload ← jsonParse req.body
    pure (reasons₃ ++ if jsonBeq b payload = true then [] else [Reason.body])
  | some (.jsonContained b) => do
    let payload ← jsonParse req.body
    pure (reasons₃ ++ if jsonEq b payload = true then [] else [Reason.body])
  | none => pure reasons₃

/-- `WithHandler::with`: the accumulated vector converted through
`From<Vec<Reason>> for Report`. -/
def WithHandler.withReport (jsonParse : String → Except String Json)
    (h : WithHandler) (req : HttpRequest) : Except String Report :=
  (h.withReasons jsonParse req).map Report.ofReasons

/-! ## Cases and the connector (`connector.rs`) -/

/-- The resolved output of the boxed `ResponseFuture`:
`Result<Response<String>, BoxError>`. -/
abbrev ResponseFuture := Except String HttpResponse

/-- One registered case: matcher trait object (`with`), responder trait
object (`returning`), atomic observed counter (`seen`) and optional declared
count.  The struct itself is declared outside `src/`; the fields are those
used by `connector.rs` and constructed by `builder.rs`'s
`Case::new(with, returning, count)`. -/
structure Case where
  withFn : HttpRequest → Except String Report
  returning : HttpRequest → ResponseFuture
  seen : Nat
  count : Option Nat

/-- `Case::new(with, returning, count)` as invoked by
`CaseBuilder::returning`: the observed counter starts at zero. -/
def Case.new (withFn : HttpRequest → Except String Report)
    (returning : HttpRequest → ResponseFuture) (count : Option Nat) : Case :=
  ⟨withFn, returning, 0, count⟩

/-- Diagnostic levels (`level.rs`), ordered through their `u8` value. -/
inductive Level where
  | none
  | error
  | missing
deriving DecidableEq, Repr

/-- The `#[repr(u8)]` values: `None = 0`, `Error = 1`, `Missing = 2`. -/
def Level.val : Level → Nat
  | .none => 0
  | .error => 1
  | .missing => 2

/-- The crate's `Error` enum (the variants reachable from dispatch,
checkpoint and the stream).  A checkpoint entry is the `(expected, observed)`
pair carried by the missing checkpoint error type. -/
inductive Err where
  | checkpoint (entries : List (Nat × Nat))
  | httparse (msg : String)
  | runtime (msg : String)
  | notFound (req : HttpRequest)
deriving DecidableEq

structure InnerConnector where
  level : Level
  cases : List Case

/-- The case-scan loop of `InnerConnector::matches` (`connector.rs`),
acting on the reconstructed request.  The shared atomic counters are
threaded as state: the returned list is the case list after the scan
(`seen.fetch_add(1, Release)` on the first match).  The `print_report`
diagnostic call guarded by `level >= Missing` only prints and is not
modelled. -/
def scanCases (cases : List Case) (req : HttpRequest) :
    List Case × Except Err ResponseFuture :=
  match cases with
  | [] => ([], .error (.notFound req))
  | c :: rest =>
    match c.withFn req with
    | .error e => (c :: rest, .error (.runtime e))
    | .ok .isMatch => ({ c with seen := c.seen + 1 } :: rest, .ok (c.returning req))
    | .ok (.mismatch _) =>
      let result := scanCases rest req
      (c :: result.1, result.2)

/-- `httparse::Request` as read by `into_request` and `poll_write`:
parsed method, path and headers (unused `EMPTY_HEADER` slots have an empty
name). -/
structure HRequest where
  method : Option String
  path : Option String
  headers : List (String × String)
deriving DecidableEq, Repr

/-- `into_request` (`connector.rs`): reconstruct a `hyper::Request<String>`
from the parse result, body bytes and connection URI.  `utf8` models
`std::str::from_utf8`; `mergeUri` models replacing the connection URI's
path-and-query with the parsed request path (`Uri::from_parts`).  The
builder's default method is `GET`; headers with empty names are skipped. -/
def into_request (utf8 : List Nat → Except String String)
    (mergeUri : String → String → Except String String)
    (req : HRequest) (body : List Nat) (uri : String) : Except String HttpRequest := do
  let bodyStr ← utf8 body
  let uri' ← match req.path with
    | some path => mergeUri uri path
    | none => pure uri
  let method := match req.method with
    | some m => m
    | none => "GET"
  let headers := req.headers.filter (fun h => h.1 ≠ "")
  pure ⟨method, uri', headers, bodyStr⟩

/-- `InnerConnector::matches`: reconstruct the request (errors become
`Error::Runtime` through `?`), then scan the cases. -/
def InnerConnector.matches (utf8 : List Nat → Except String String)
    (mergeUri : String → String → Except String String)
    (conn : InnerConnector) (req : HRequest) (body : List Nat) (uri : String) :
    InnerConnector × Except Err ResponseFuture :=
  match into_request utf8 mergeUri req body uri with
  | .error e => (conn, .error (.runtime e))
  | .ok req' =>
    let result := scanCases conn.cases req'
    ({ conn with cases := result.1 }, result.2)

/-- Modelled from the spec: `Case::checkpoint` is declared outside `src/`
(only its caller `InnerConnector::checkpoint` is present).  Per the spec's
checkpoint algorithm, a case with a declared expected count whose observed
count differs yields one `(expected, observed)` entry; a case without a
declared count, or with the count met exactly, yields none. -/
def Case.checkpoint (c : Case) : Option (Nat × Nat) :=
  match c.count with
  | some n => if c.seen = n then none else some (n, c.seen)
  | none => none

/-- `InnerConnector::checkpoint` (`connector.rs`): collect every case's
checkpoint entry; succeed only when there are none. -/
def InnerConnector.checkpoint (conn : InnerConnector) : Except Err Unit :=
  let checkpoints := conn.cases.filterMap Case.checkpoint
  if checkpoints.isEmpty then .ok () else .error (.checkpoint checkpoints)

/-! ## The virtual duplex transport (`stream.rs`) -/

inductive ParseStatus where
  | complete (bodyPos : Nat)
  | incomplete
deriving DecidableEq, Repr

/-- `Status::Partial` is modelled as `ParseStatus.incomplete`. -/
inductive ResponseState where
  | new
  | fut (f : ResponseFuture)
  | data (d : List Nat) (pos : Nat)

structure MockStream where
  res : ResponseState
  req_data : List Nat
  waker : Option Unit
  uri : String
  connector : InnerConnector

/-- `MockStream::new`. -/
def MockStream.new (connector : InnerConnector) (uri : String) : MockStream :=
  ⟨.new, [], Option.none, uri, connector⟩

/-- Transport-level errors observed by the host client library. -/
inductive IoErr where
  | connectionRefused (e : Err)
deriving DecidableEq

/-- `into_connect_error` (`stream.rs`): wrap a crate error in an
`io::Error` of kind `ConnectionRefused`. -/
def into_connect_error (e : Err) : IoErr := .connectionRefused e

inductive Poll (α : Type) where
  | ready (a : α)
  | pending
deriving DecidableEq, Repr

/-- `MockStream::poll_write` (the `AsyncWrite` implementation): append the
chunk to the accumulation buffer, parse the whole buffer (`parse` models
`httparse::Request::parse`), compute the body slice (empty on a partial
parse), dispatch through `InnerConnector::matches`, store the returned
future and wake the parked reader.  Parse and dispatch errors abort the
write with a connection-refused error. -/
def MockStream.poll_write
    (parse : List Nat → Except String (ParseStatus × HRequest))
    (utf8 : List Nat → Except String String)
    (mergeUri : String → String → Except String String)
    (s : MockStream) (buf : List Nat) : MockStream × Except IoErr Nat :=
  let req_data := s.req_data ++ buf
  match parse req_data with
  | .error e => ({ s with req_data := req_data }, .error (into_connect_error (.httparse e)))
  | .ok (status, req) =>
    let body : List Nat :=
      match status with
      | .complete bodyPos => req_data.drop bodyPos
      | .incomplete => []
    let result := InnerConnector.matches utf8 mergeUri s.connector req body s.uri
    match result.2 with
    | .error e =>
      ({ s with req_data := req_data, connector := result.1 },
       .error (into_connect_error e))
    | .ok f =>
      ({ s with req_data := req_data, connector := result.1, res := .fut f,
                waker := Option.none },
       .ok buf.length)

/-- UTF-8 bytes of a string. -/
def strBytes (s : String) : List Nat := s.toUTF8.toList.map (fun b => b.toNat)

/-- `into_data` (`stream.rs`): serialize a response: status line (both
`as_u16` and `as_str` render the numeric code), headers in insertion order,
blank line, body.  Header values are modelled as strings, so the `to_str`
failure path cannot arise. -/
def into_data (res : HttpResponse) : List Nat :=
  strBytes ("HTTP/1.1 " ++ toString res.status ++ " " ++ toString res.status ++ "\r\n"
    ++ String.join (res.headers.map (fun h => h.1 ++ ": " ++ h.2 ++ "\r\n"))
    ++ "\r\n" ++ res.body)

/-- The shared tail of `poll_read`: copy `min(remaining, len - pos)` bytes
starting at the cursor, advance the cursor, store the waker. -/
def MockStream.readFrom (s : MockStream) (d : List Nat) (pos remaining : Nat) :
    MockStream × Poll (Except IoErr (List Nat)) :=
  let size := min remaining (d.length - pos)
  ({ s with res := .data d (pos + size), waker := some () },
   .ready (.ok ((d.drop pos).take size)))

/-- `MockStream::poll_read` (the `AsyncRead` implementation): in the `New`
state park the waker and suspend; in the `Fut` state poll the future (the
model's futures are already resolved), map its error to a connection error,
serialize on success and read from position `0`; in the `Data` state read
from the stored cursor. -/
def MockStream.poll_read (s : MockStream) (remaining : Nat) :
    MockStream × Poll (Except IoErr (List Nat)) :=
  match s.res with
  | .new => ({ s with waker := some () }, .pending)
  | .fut f =>
    match f with
    | .error e => (s, .ready (.error (into_connect_error (.runtime e))))
    | .ok res => s.readFrom (into_data res) 0 remaining
  | .data d pos => s.readFrom d pos remaining

/-! ## Header check semantics (C6) -/

lemma mem_getAll (H : List (String × String)) (K v : String) :
    v ∈ getAll H K ↔ ∃ p ∈ H, p.1 = K ∧ p.2 = v := by
  simp only [getAll, List.mem_filterMap]
  constructor
  · rintro ⟨p, hp, hf⟩
    by_cases h : p.1 = K
    · simp only [h, if_true, Option.some.injEq] at hf
      exact ⟨p, hp, h, hf⟩
    · simp [h] at hf
  · rintro ⟨p, hp, h1, h2⟩
    exact ⟨p, hp, by simp [h1, h2]⟩

lemma foldl_header_count (v : String) (l : List String) (n : Nat) (b : Bool) :
    l.foldl (fun acc rv => (acc.1 + 1, acc.2 || v == rv)) (n, b)
      = (n + l.length, b || l.any (fun rv => v == rv)) := by
  induction l generalizing n b with
  | nil => simp
  | cons x xs ih =>
    rw [List.foldl_cons, ih]
    simp only [List.any_cons, List.length_cons, Prod.mk.injEq, Bool.or_assoc]
    exact ⟨by omega, trivial⟩

lemma length_eq_one_any (v : String) (l : List String) :
    (l.length = 1 ∧ l.any (fun rv => v == rv) = true) ↔ l = [v] := by
  constructor
  · rintro ⟨hlen, hany⟩
    match l, hlen with
    | [x], _ =>
      simp only [List.any_cons, List.any_nil, Bool.or_false, beq_iff_eq] at hany
      simp [hany]
  · rintro rfl
    simp

lemma mergeSortStr_eq_iff (l l' : List String) :
    (l.mergeSort (fun a b => a ≤ b) = l'.mergeSort (fun a b => a ≤ b))
      ↔ (l : Multiset String) = (l' : Multiset String) := by
  have hle : ∀ a b c : String,
      (decide (a ≤ b)) = true → (decide (b ≤ c)) = true → (decide (a ≤ c)) = true := by
    intro a b c hab hbc
    simp only [decide_eq_true_eq] at *
    exact le_trans hab hbc
  have htot : ∀ a b : String, ((decide (a ≤ b)) || (decide (b ≤ a))) = true := by
    intro a b
    simp only [Bool.or_eq_true, decide_eq_true_eq]
    exact le_total a b
  constructor
  · intro h
    rw [Multiset.coe_eq_coe]
    have h1 := List.mergeSort_perm l (fun a b => decide (a ≤ b))
    have h2 := List.mergeSort_perm l' (fun a b => decide (a ≤ b))
    exact h1.symm.trans (h ▸ h2)
  · intro h
    have hp : l.Perm l' := Multiset.coe_eq_coe.mp h
    haveI : IsAntisymm String (fun a b => decide (a ≤ b) = true) :=
      ⟨fun a b hab hba => le_antisymm (by simpa using hab) (by simpa using hba)⟩
    have hs1 := List.sorted_mergeSort hle htot l
    have hs2 := List.sorted_mergeSort hle htot l'
    have hperm : (l.mergeSort (fun a b => a ≤ b)).Perm
        (l'.mergeSort (fun a b => a ≤ b)) :=
      ((List.mergeSort_perm l _).trans hp).trans (List.mergeSort_perm l' _).symm
    exact List.eq_of_perm_of_sorted hperm hs1 hs2

/-- **C6**: the at-least-once header constraint holds iff some entry with the
given name equals the expected value; exactly-once holds iff the name's value
list is exactly the one expected value (so a request with two entries of the
name, one equal, fails exactly-once but passes at-least-once); the all
constraint holds iff the multiset of the name's values equals the expected
multiset, order-insensitively. -/
theorem header_check_semantics :
    (∀ (K V : String) (H : List (String × String)) (vs : List String),
      (check_headers H K (.atLeastOnce V) = true ↔ ∃ p ∈ H, p.1 = K ∧ p.2 = V)
      ∧ (check_headers H K (.exactlyOnce V) = true ↔ getAll H K = [V])
      ∧ (check_headers H K (.all vs) = true ↔
          (getAll H K : Multiset String) = (vs : Multiset String)))
    ∧ check_headers [("k", "v"), ("k", "w")] "k" (.atLeastOnce "v") = true
    ∧ check_headers [("k", "v"), ("k", "w")] "k" (.exactlyOnce "v") = false := by
  refine ⟨fun K V H vs => ⟨?_, ?_, ?_⟩, by decide, by decide⟩
  · simp only [check_headers, List.any_eq_true, beq_iff_eq]
    constructor
    · rintro ⟨rv, hrv, heq⟩
      obtain ⟨p, hp, h1, h2⟩ := (mem_getAll H K rv).1 hrv
      exact ⟨p, hp, h1, by rw [h2, ← heq]⟩
    · rintro ⟨p, hp, h1, h2⟩
      exact ⟨p.2, (mem_getAll H K p.2).2 ⟨p, hp, h1, rfl⟩, h2.symm⟩
  · simp only [check_headers, decide_eq_true_eq]
    rw [foldl_header_count]
    simp only [Nat.zero_add, Bool.false_or, Prod.mk.injEq]
    exact length_eq_one_any V (getAll H K)
  · simp only [check_headers, decide_eq_true_eq]
    exact mergeSortStr_eq_iff _ _

instance {ε α : Type} [DecidableEq ε] [DecidableEq α] : DecidableEq (Except ε α) :=
  fun a b =>
    match a, b with
    | .ok x, .ok y => decidable_of_iff (x = y) (by simp)
    | .error x, .error y => decidable_of_iff (x = y) (by simp)
    | .ok _, .error _ => isFalse (by simp)
    | .error _, .ok _ => isFalse (by simp)

/-! ## Structured matcher evaluation order (C8) -/

/-- The method check's contribution to the reason vector. -/
def methodReason (h : WithHandler) (req : HttpRequest) : List Reason :=
  match h.method with
  | some m => if m ≠ req.method then [Reason.method] else []
  | none => []

/-- The URI check's contribution to the reason vector. -/
def uriReason (h : WithHandler) (req : HttpRequest) : List Reason :=
  match h.uri with
  | some u => if u ≠ req.uri then [Reason.uri] else []
  | none => []

/-- The header checks' contributions, in declaration order. -/
def headerReasons (h : WithHandler) (req : HttpRequest) : List Reason :=
  h.headers.filterMap (fun kv =>
    if check_headers req.headers kv.1 kv.2 then none else some (Reason.header kv.1))

/-- The body check's contribution (it can fail when the request body is not
parseable JSON). -/
def bodyReason (jsonParse : String → Except String Json) (h : WithHandler)
    (req : HttpRequest) : Except String (List Reason) :=
  match h.body with
  | some (.str b) => .ok (if b ≠ req.body then [Reason.body] else [])
  | some (.json b) =>
    (jsonParse req.body).map
      (fun payload => if jsonBeq b payload = true then [] else [Reason.body])
  | some (.jsonContained b) =>
    (jsonParse req.body).map
      (fun payload => if jsonEq b payload = true then [] else [Reason.body])
  | none => .ok []

lemma mem_methodReason (h : WithHandler) (req : HttpRequest) (x : Reason) :
    x ∈ methodReason h req ↔
      x = Reason.method ∧ ∃ m, h.method = some m ∧ m ≠ req.method := by
  unfold methodReason
  cases hm : h.method with
  | none => simp
  | some m => by_cases hne : m = req.method <;> simp [hne, and_comm]

lemma mem_uriReason (h : WithHandler) (req : HttpRequest) (x : Reason) :
    x ∈ uriReason h req ↔
      x = Reason.uri ∧ ∃ u, h.uri = some u ∧ u ≠ req.uri := by
  unfold uriReason
  cases hu : h.uri with
  | none => simp
  | some u => by_cases hne : u = req.uri <;> simp [hne, and_comm]

lemma mem_headerReasons (h : WithHandler) (req : HttpRequest) (x : Reason) :
    x ∈ headerReasons h req ↔
      ∃ k chk, x = Reason.header k ∧ (k, chk) ∈ h.headers
        ∧ check_headers req.headers k chk = false := by
  simp only [headerReasons, List.mem_filterMap]
  constructor
  · rintro ⟨kv, hkv, hf⟩
    by_cases hc : check_headers req.headers kv.1 kv.2 = true
    · simp [hc] at hf
    · rw [Bool.not_eq_true] at hc
      simp only [hc, Bool.false_eq_true, if_false, Option.some.injEq] at hf
      exact ⟨kv.1, kv.2, hf.symm, hkv, hc⟩
  · rintro ⟨k, chk, rfl, hmem, hc⟩
    exact ⟨(k, chk), hmem, by simp [hc]⟩

lemma bodyReason_cases (jsonParse : String → Except String Json) (h : WithHandler)
    (req : HttpRequest) (rsB : List Reason)
    (hok : bodyReason jsonParse h req = .ok rsB) :
    rsB = [] ∨ rsB = [Reason.body] := by
  unfold bodyReason at hok
  cases hb : h.body with
  | none => simp [hb] at hok; simp [← hok]
  | some b =>
    cases b with
    | str s =>
      simp only [hb, Except.ok.injEq] at hok
      by_cases hs : s = req.body <;> simp [hs] at hok <;> simp [← hok]
    | json v =>
      simp only [hb] at hok
      cases hp : jsonParse req.body with
      | error e => simp [hp, Except.map] at hok
      | ok payload =>
        simp only [hp, Except.map, Except.ok.injEq] at hok
        by_cases hj : jsonBeq v payload = true <;> simp [hj] at hok <;> simp [← hok]
    | jsonContained v =>
      simp only [hb] at hok
      cases hp : jsonParse req.body with
      | error e => simp [hp, Except.map] at hok
      | ok payload =>
        simp only [hp, Except.map, Except.ok.injEq] at hok
        by_cases hj : jsonEq v payload = true <;> simp [hj] at hok <;> simp [← hok]

/-- **C8**: the mismatch reason vector is built by the method check, then the
URI check, then each header constraint in declaration order, then the body
constraint; no check short-circuits, so the result carries a reason for every
failing constraint (and a request failing method, URI, a header and the body
yields all four reasons). -/
theorem with_evaluation_order :
    (∀ (jsonParse : String → Except String Json) (h : WithHandler)
       (req : HttpRequest) (rs : List Reason),
      h.withReasons jsonParse req = .ok rs →
      ∃ rsB, bodyReason jsonParse h req = .ok rsB
        ∧ rs = methodReason h req ++ uriReason h req ++ headerReasons h req ++ rsB
        ∧ (Reason.method ∈ rs ↔ ∃ m, h.method = some m ∧ m ≠ req.method)
        ∧ (Reason.uri ∈ rs ↔ ∃ u, h.uri = some u ∧ u ≠ req.uri)
        ∧ (∀ k, Reason.header k ∈ rs ↔
            ∃ chk, (k, chk) ∈ h.headers ∧ check_headers req.headers k chk = false)
        ∧ (Reason.body ∈ rs ↔ rsB = [Reason.body]))
    ∧ WithHandler.withReport (fun _ => .error "unused")
        ⟨some "http://x.test/a", some "GET", [("x-key", .atLeastOnce "1")],
         some (.str "B")⟩
        ⟨"POST", "http://x.test/b", [], "C"⟩
      = .ok (.mismatch {Reason.method, Reason.uri, Reason.header "x-key", Reason.body}) := by
  constructor
  · intro jsonParse h req rs hok
    have hdecomp : ∃ rsB, bodyReason jsonParse h req = .ok rsB
        ∧ rs = methodReason h req ++ uriReason h req ++ headerReasons h req ++ rsB := by
      unfold WithHandler.withReasons at hok
      cases hb : h.body with
      | none =>
        simp only [hb, pure, Except.pure, Except.ok.injEq] at hok
        exact ⟨[], by simp [bodyReason, hb], by
          simp [← hok, methodReason, uriReason, headerReasons, List.append_assoc]⟩
      | some b =>
        cases b with
        | str s =>
          simp only [hb, pure, Except.pure, Except.ok.injEq] at hok
          refine ⟨if s ≠ req.body then [Reason.body] else [], by simp [bodyReason, hb], ?_⟩
          simp [← hok, methodReason, uriReason, headerReasons, List.append_assoc]
        | json v =>
          simp only [hb] at hok
          cases hp : jsonParse req.body with
          | error e => simp [hp, Except.bind, bind] at hok
          | ok payload =>
            simp only [hp, bind, Except.bind, pure, Except.pure, Except.ok.injEq] at hok
            refine ⟨if jsonBeq v payload = true then [] else [Reason.body],
              by simp [bodyReason, hb, hp, Except.map], ?_⟩
            simp [← hok, methodReason, uriReason, headerReasons, List.append_assoc]
        | jsonContained v =>
          simp only [hb] at hok
          cases hp : jsonParse req.body with
          | error e => simp [hp, Except.bind, bind] at hok
          | ok payload =>
            simp only [hp, bind, Except.bind, pure, Except.pure, Except.ok.injEq] at hok
            refine ⟨if jsonEq v payload = true then [] else [Reason.body],
              by simp [bodyReason, hb, hp, Except.map], ?_⟩
            simp [← hok, methodReason, uriReason, headerReasons, List.append_assoc]
    obtain ⟨rsB, hokB, heq⟩ := hdecomp
    refine ⟨rsB, hokB, heq, ?_, ?_, ?_, ?_⟩
    · subst heq
      rcases bodyReason_cases jsonParse h req rsB hokB with rfl | rfl <;>
        simp [List.mem_append, mem_methodReason, mem_uriReason, mem_headerReasons]
    · subst heq
      rcases bodyReason_cases jsonParse h req rsB hokB with rfl | rfl <;>
        simp [List.mem_append, mem_methodReason, mem_uriReason, mem_headerReasons]
    · intro k
      subst heq
      rcases bodyReason_cases jsonParse h req rsB hokB with rfl | rfl <;>
        simp [List.mem_append, mem_methodReason, mem_uriReason, mem_headerReasons]
    · subst heq
      rcases bodyReason_cases jsonParse h req rsB hokB with rfl | rfl <;>
        simp [List.mem_append, mem_methodReason, mem_uriReason, mem_headerReasons]
  · decide

/-- Witness for C8: the four-way-failing request of the concrete instance,
run through the theorem. -/
theorem with_evaluation_order_witness :
    ∃ rsB, bodyReason (fun _ => Except.error "unused")
        ⟨some "http://x.test/a", some "GET", [("x-key", HeaderCheck.atLeastOnce "1")],
         some (Body.str "B")⟩
        ⟨"POST", "http://x.test/b", [], "C"⟩ = .ok rsB
      ∧ [Reason.method, Reason.uri, Reason.header "x-key", Reason.body] =
          methodReason
            ⟨some "http://x.test/a", some "GET", [("x-key", HeaderCheck.atLeastOnce "1")],
             some (Body.str "B")⟩
            ⟨"POST", "http://x.test/b", [], "C"⟩
          ++ uriReason
            ⟨some "http://x.test/a", some "GET", [("x-key", HeaderCheck.atLeastOnce "1")],
             some (Body.str "B")⟩
            ⟨"POST", "http://x.test/b", [], "C"⟩
          ++ headerReasons
            ⟨some "http://x.test/a", some "GET", [("x-key", HeaderCheck.atLeastOnce "1")],
             some (Body.str "B")⟩
            ⟨"POST", "http://x.test/b", [], "C"⟩
          ++ rsB := by
  obtain ⟨rsB, h1, h2, _⟩ := with_evaluation_order.1 (fun _ => Except.error "unused")
    ⟨some "http://x.test/a", some "GET", [("x-key", HeaderCheck.atLeastOnce "1")],
     some (Body.str "B")⟩
    ⟨"POST", "http://x.test/b", [], "C"⟩
    [Reason.method, Reason.uri, Reason.header "x-key", Reason.body] (by decide)
  exact ⟨rsB, h1, h2⟩

/-! ## JSON containment (C7) -/

/-- **C7 (amended)**: partial JSON containment is asymmetric
(`{"a":1}` is contained in `{"a":1,"b":2}` but not conversely) while exact
JSON equality is symmetric; containment holds iff every expected key/value
pair is recursively present with a contained value and every expected array
element is recursively contained in some actual element; and a body
constraint of exact JSON equality reports a body mismatch on any actual
document that merely contains (without equalling) the expected one. -/
theorem json_partial_containment :
    (jsonEq (.obj [("a", .num 1)]) (.obj [("a", .num 1), ("b", .num 2)]) = true
      ∧ jsonEq (.obj [("a", .num 1), ("b", .num 2)]) (.obj [("a", .num 1)]) = false)
    ∧ (∀ a b : Json, jsonBeq a b = jsonBeq b a)
    ∧ (∀ a b : Json, jsonEq a b = true ↔ JsonContains a b)
    ∧ (∀ (jsonParse : String → Except String Json) (h : WithHandler)
         (req : HttpRequest) (b payload : Json) (rs : List Reason),
        h.body = some (.json b) →
        jsonParse req.body = .ok payload →
        jsonEq b payload = true →
        jsonBeq b payload = false →
        h.withReasons jsonParse req = .ok rs →
        Reason.body ∈ rs) := by
  refine ⟨⟨?_, ?_⟩, jsonBeq_comm, jsonEq_iff_contains, ?_⟩
  · simp [jsonEq, jsonEqObj, jsonLookup]
  · simp [jsonEq, jsonEqObj, jsonLookup]
  · intro jsonParse h req b payload rs hb hp hje hbe hok
    unfold WithHandler.withReasons at hok
    simp only [hb, hp, bind, Except.bind, pure, Except.pure, hbe, Bool.false_eq_true,
      if_false, Except.ok.injEq] at hok
    simp [← hok]

/-- Witness for C7: a concrete exact-JSON body constraint rejecting a
strictly larger actual document. -/
theorem json_partial_containment_witness :
    Reason.body ∈ ([Reason.body] : List Reason) :=
  json_partial_containment.2.2.2
    (fun _ => .ok (.obj [("a", .num 1), ("b", .num 2)]))
    ⟨none, none, [], some (.json (.obj [("a", .num 1)]))⟩
    ⟨"GET", "http://x.test/", [], "B"⟩
    (.obj [("a", .num 1)]) (.obj [("a", .num 1), ("b", .num 2)]) [Reason.body]
    rfl rfl
    (by simp [jsonEq, jsonEqObj, jsonLookup])
    (by simp [jsonBeq, jsonBeqObjList])
    (by simp [WithHandler.withReasons, jsonBeq, jsonBeqObjList, bind, Except.bind,
      pure, Except.pure])

/-- **C7 counterexample**: `json_eq` accepts an array whose expected element
is merely contained in (not equal to) an actual element, refuting the
as-stated reading that every expected array element must have an *equal*
element in the actual array. -/
theorem json_claim_counterexample :
    jsonEq (.arr [.obj [("a", .num 1)]]) (.arr [.obj [("a", .num 1), ("b", .num 2)]]) = true
    ∧ ¬ JsonContainsClaim (.arr [.obj [("a", .num 1)]])
        (.arr [.obj [("a", .num 1), ("b", .num 2)]]) := by
  constructor
  · simp [jsonEq, jsonEqArr, jsonEqAny, jsonEqObj, jsonLookup]
  · intro hc
    simp only [JsonContainsClaim] at hc
    obtain ⟨o, ho, heq⟩ := hc (Json.obj [("a", Json.num 1)]) (by simp)
    simp only [List.mem_singleton] at ho
    subst ho
    simp at heq

/-! ## Dispatch loop lemmas (C1, C4, C9) -/

lemma scanCases_first_match (req : HttpRequest) :
    ∀ (cases : List Case) (i : Nat) (c : Case),
      cases[i]? = some c →
      c.withFn req = .ok .isMatch →
      (∀ j, j < i → ∀ cj, cases[j]? = some cj →
        ∃ rs, cj.withFn req = .ok (.mismatch rs)) →
      scanCases cases req =
        (cases.set i { c with seen := c.seen + 1 }, .ok (c.returning req)) := by
  intro cases
  induction cases with
  | nil => intro i c hc _ _; simp at hc
  | cons c0 rest ih =>
    intro i c hc hm hmis
    cases i with
    | zero =>
      simp only [List.getElem?_cons_zero, Option.some.injEq] at hc
      subst hc
      simp [scanCases, hm, List.set]
    | succ i =>
      obtain ⟨rs0, hrs0⟩ := hmis 0 (Nat.succ_pos i) c0 (by simp)
      have hrec := ih i c (by simpa using hc) hm
        (fun j hj cj hcj => hmis (j + 1) (Nat.succ_lt_succ hj) cj (by simpa using hcj))
      simp [scanCases, hrs0, hrec, List.set]

lemma scanCases_ok_spec (req : HttpRequest) :
    ∀ (cases cases' : List Case) (fut : ResponseFuture),
      scanCases cases req = (cases', .ok fut) →
      ∃ i c, cases[i]? = some c ∧ c.withFn req = .ok .isMatch
        ∧ fut = c.returning req
        ∧ cases' = cases.set i { c with seen := c.seen + 1 } := by
  intro cases
  induction cases with
  | nil => intro cases' fut h; simp [scanCases] at h
  | cons c0 rest ih =>
    intro cases' fut h
    unfold scanCases at h
    cases hw : c0.withFn req with
    | error msg => rw [hw] at h; simp at h
    | ok r =>
      cases r with
      | isMatch =>
        rw [hw] at h
        simp only [Prod.mk.injEq, Except.ok.injEq] at h
        obtain ⟨h1, h2⟩ := h
        exact ⟨0, c0, by simp, hw, h2.symm, by rw [← h1]; simp [List.set]⟩
      | mismatch rs =>
        rw [hw] at h
        simp only [Prod.mk.injEq] at h
        obtain ⟨h1, h2⟩ := h
        have hr : scanCases rest req = ((scanCases rest req).1, .ok fut) := by
          rw [← h2]
        obtain ⟨i, c, hci, hcm, hfut, hset⟩ := ih (scanCases rest req).1 fut hr
        refine ⟨i + 1, c, by simpa using hci, hcm, hfut, ?_⟩
        rw [← h1, hset]
        simp [List.set]

lemma scanCases_error_unchanged (req : HttpRequest) :
    ∀ (cases cases' : List Case) (e : Err),
      scanCases cases req = (cases', .error e) → cases' = cases := by
  intro cases
  induction cases with
  | nil =>
    intro cases' e h
    simp only [scanCases, Prod.mk.injEq] at h
    exact h.1.symm
  | cons c0 rest ih =>
    intro cases' e h
    unfold scanCases at h
    cases hw : c0.withFn req with
    | error msg =>
      rw [hw] at h
      simp only [Prod.mk.injEq] at h
      exact h.1.symm
    | ok r =>
      cases r with
      | isMatch => rw [hw] at h; simp at h
      | mismatch rs =>
        rw [hw] at h
        simp only [Prod.mk.injEq] at h
        obtain ⟨h1, h2⟩ := h
        have hr : scanCases rest req = ((scanCases rest req).1, .error e) := by
          rw [← h2]
        rw [← h1, ih (scanCases rest req).1 e hr]

lemma scanCases_matcher_error (req : HttpRequest) :
    ∀ (cases : List Case) (j : Nat) (cj : Case) (msg : String),
      cases[j]? = some cj →
      cj.withFn req = .error msg →
      (∀ k, k < j → ∀ ck, cases[k]? = some ck →
        ∃ rs, ck.withFn req = .ok (.mismatch rs)) →
      scanCases cases req = (cases, .error (.runtime msg)) := by
  intro cases
  induction cases with
  | nil => intro j cj msg hc _ _; simp at hc
  | cons c0 rest ih =>
    intro j cj msg hc he hmis
    cases j with
    | zero =>
      simp only [List.getElem?_cons_zero, Option.some.injEq] at hc
      subst hc
      simp [scanCases, he]
    | succ j =>
      obtain ⟨rs0, hrs0⟩ := hmis 0 (Nat.succ_pos j) c0 (by simp)
      have hrec := ih j cj msg (by simpa using hc) he
        (fun k hk ck hck => hmis (k + 1) (Nat.succ_lt_succ hk) ck (by simpa using hck))
      simp [scanCases, hrs0, hrec]

/-- **C1**: when the reconstructed request is accepted, `InnerConnector::matches`
selects the first case (in registration order) whose matcher reports `Match`:
it increments exactly that case's counter, returns exactly that case's
responder output, and leaves every other case untouched. -/
theorem dispatch_first_match_wins
    (utf8 : List Nat → Except String String)
    (mergeUri : String → String → Except String String)
    (conn : InnerConnector) (hreq : HRequest) (body : List Nat) (uri : String)
    (req : HttpRequest) (i : Nat) (c : Case)
    (hreconstruct : into_request utf8 mergeUri hreq body uri = .ok req)
    (hc : conn.cases[i]? = some c)
    (hmatch : c.withFn req = .ok .isMatch)
    (hbefore : ∀ j, j < i → ∀ cj, conn.cases[j]? = some cj →
      ∃ rs, cj.withFn req = .ok (.mismatch rs)) :
    InnerConnector.matches utf8 mergeUri conn hreq body uri =
      ({ conn with cases := conn.cases.set i { c with seen := c.seen + 1 } },
       .ok (c.returning req))
    ∧ (conn.cases.set i { c with seen := c.seen + 1 })[i]? =
        some { c with seen := c.seen + 1 }
    ∧ (∀ j, j ≠ i →
        (conn.cases.set i { c with seen := c.seen + 1 })[j]? = conn.cases[j]?) := by
  have hscan := scanCases_first_match req conn.cases i c hc hmatch hbefore
  have hlen : i < conn.cases.length := by
    rcases List.getElem?_eq_some.mp hc with ⟨hlt, _⟩
    exact hlt
  refine ⟨?_, List.getElem?_set_self hlen, fun j hj => List.getElem?_set_ne (Ne.symm hj)⟩
  unfold InnerConnector.matches
  rw [hreconstruct]
  simp only [hscan]

/-- Witness for C1: a two-case connector where the first case mismatches and
the second matches; dispatch picks the second and bumps only its counter. -/
theorem dispatch_first_match_wins_witness :
    InnerConnector.matches (fun _ => .ok "") (fun u _ => .ok u)
      ⟨Level.missing,
       [Case.new (fun _ => .ok (.mismatch ∅)) (fun _ => .ok ⟨404, [], "no"⟩) Option.none,
        Case.new (fun _ => .ok .isMatch) (fun _ => .ok ⟨200, [], "OK"⟩) (some 1)]⟩
      ⟨some "GET", Option.none, []⟩ [] "http://x.test/" =
      ({ level := Level.missing,
         cases :=
          [Case.new (fun _ => .ok (.mismatch ∅)) (fun _ => .ok ⟨404, [], "no"⟩) Option.none,
           { Case.new (fun _ => .ok .isMatch) (fun _ => .ok ⟨200, [], "OK"⟩) (some 1) with
             seen := 1 }] },
       .ok (.ok ⟨200, [], "OK"⟩)) := by
  have h := dispatch_first_match_wins (fun _ => .ok "") (fun u _ => .ok u)
    ⟨Level.missing,
     [Case.new (fun _ => .ok (.mismatch ∅)) (fun _ => .ok ⟨404, [], "no"⟩) Option.none,
      Case.new (fun _ => .ok .isMatch) (fun _ => .ok ⟨200, [], "OK"⟩) (some 1)]⟩
    ⟨some "GET", Option.none, []⟩ [] "http://x.test/"
    ⟨"GET", "http://x.test/", [], ""⟩ 1
    (Case.new (fun _ => .ok .isMatch) (fun _ => .ok ⟨200, [], "OK"⟩) (some 1))
    rfl (by simp) rfl
    (by
      intro j hj cj hcj
      interval_cases j
      simp only [List.getElem?_cons_zero, Option.some.injEq] at hcj
      exact ⟨∅, by rw [← hcj]; rfl⟩)
  exact h.1

/-- **C4**: a successful dispatch increments exactly the matched case's
observed counter and leaves every other case unchanged; a dispatch that fails
with `NotFound` leaves every case (hence every counter) unchanged. -/
theorem dispatch_frame_effect (cases : List Case) (req : HttpRequest) :
    (∀ cases' fut, scanCases cases req = (cases', .ok fut) →
      ∃ (i : Nat) (c : Case), cases[i]? = some c ∧ c.withFn req = .ok .isMatch
        ∧ cases'[i]? = some { c with seen := c.seen + 1 }
        ∧ (∀ j, j ≠ i → cases'[j]? = cases[j]?))
    ∧ (∀ cases' r, scanCases cases req = (cases', .error (.notFound r)) →
        cases' = cases) := by
  constructor
  · intro cases' fut h
    obtain ⟨i, c, hci, hcm, _, hset⟩ := scanCases_ok_spec req cases cases' fut h
    have hlen : i < cases.length := by
      rcases List.getElem?_eq_some.mp hci with ⟨hlt, _⟩
      exact hlt
    subst hset
    exact ⟨i, c, hci, hcm, List.getElem?_set_self hlen,
      fun j hj => List.getElem?_set_ne (Ne.symm hj)⟩
  · intro cases' r h
    exact scanCases_error_unchanged req cases cases' (.notFound r) h

/-- Witness for C4: a one-case connector; dispatching a matching request
bumps its counter to 1. -/
theorem dispatch_frame_effect_witness :
    ∃ (i : Nat) (c : Case),
      [Case.new (fun _ => .ok .isMatch) (fun _ => .ok ⟨200, [], "OK"⟩) Option.none][i]?
        = some c
      ∧ c.withFn ⟨"GET", "http://x.test/", [], ""⟩ = .ok .isMatch
      ∧ (scanCases [Case.new (fun _ => .ok .isMatch) (fun _ => .ok ⟨200, [], "OK"⟩)
            Option.none] ⟨"GET", "http://x.test/", [], ""⟩).1[i]?
          = some { c with seen := c.seen + 1 }
      ∧ (∀ j, j ≠ i →
          (scanCases [Case.new (fun _ => .ok .isMatch) (fun _ => .ok ⟨200, [], "OK"⟩)
              Option.none] ⟨"GET", "http://x.test/", [], ""⟩).1[j]?
            = [Case.new (fun _ => .ok .isMatch) (fun _ => .ok ⟨200, [], "OK"⟩)
                Option.none][j]?) :=
  (dispatch_frame_effect
    [Case.new (fun _ => .ok .isMatch) (fun _ => .ok ⟨200, [], "OK"⟩) Option.none]
    ⟨"GET", "http://x.test/", [], ""⟩).1
    (scanCases [Case.new (fun _ => .ok .isMatch) (fun _ => .ok ⟨200, [], "OK"⟩)
      Option.none] ⟨"GET", "http://x.test/", [], ""⟩).1
    (.ok ⟨200, [], "OK"⟩) rfl

/-- **C9**: a matcher error at case `j` (with every earlier case a mismatch)
aborts the scan: the error is propagated as a dispatch failure
(`Error::Runtime`), no counter changes, no responder output is returned, and
no later case is selected. -/
theorem dispatch_matcher_error_propagates
    (cases : List Case) (req : HttpRequest) (j : Nat) (cj : Case) (msg : String)
    (hc : cases[j]? = some cj)
    (he : cj.withFn req = .error msg)
    (hbefore : ∀ k, k < j → ∀ ck, cases[k]? = some ck →
      ∃ rs, ck.withFn req = .ok (.mismatch rs)) :
    scanCases cases req = (cases, .error (.runtime msg)) :=
  scanCases_matcher_error req cases j cj msg hc he hbefore

/-- Witness for C9: the first case's matcher fails; the scan returns the
error with the case list unchanged, even though the second case matches. -/
theorem dispatch_matcher_error_propagates_witness :
    scanCases
      [Case.new (fun _ => .error "boom") (fun _ => .ok ⟨500, [], "no"⟩) Option.none,
       Case.new (fun _ => .ok .isMatch) (fun _ => .ok ⟨200, [], "OK"⟩) Option.none]
      ⟨"GET", "http://x.test/", [], ""⟩ =
      ([Case.new (fun _ => .error "boom") (fun _ => .ok ⟨500, [], "no"⟩) Option.none,
        Case.new (fun _ => .ok .isMatch) (fun _ => .ok ⟨200, [], "OK"⟩) Option.none],
       .error (.runtime "boom")) :=
  dispatch_matcher_error_propagates
    [Case.new (fun _ => .error "boom") (fun _ => .ok ⟨500, [], "no"⟩) Option.none,
     Case.new (fun _ => .ok .isMatch) (fun _ => .ok ⟨200, [], "OK"⟩) Option.none]
    ⟨"GET", "http://x.test/", [], ""⟩ 0
    (Case.new (fun _ => .error "boom") (fun _ => .ok ⟨500, [], "no"⟩) Option.none)
    "boom" (by simp) rfl (fun k hk => absurd hk (Nat.not_lt_zero k))

/-! ## Checkpoint semantics (C5) -/

/-- The cases violating their declared expectation (spec reading: only cases
with a declared count can be violated). -/
def violatedCases (cases : List Case) : List Case :=
  cases.filter (fun c =>
    match c.count with
    | some n => decide (¬ c.seen = n)
    | none => false)

lemma filterMap_checkpoint_eq (cases : List Case) :
    cases.filterMap Case.checkpoint
      = (violatedCases cases).map (fun c => (c.count.getD 0, c.seen)) := by
  unfold violatedCases
  induction cases with
  | nil => rfl
  | cons c rest ih =>
    cases hc : c.count with
    | none => simp [List.filterMap_cons, List.filter_cons, Case.checkpoint, hc, ih]
    | some n =>
      by_cases hs : c.seen = n <;>
        simp [List.filterMap_cons, List.filter_cons, Case.checkpoint, hc, hs, ih]

/-- **C5**: `checkpoint()` returns `Ok` iff every case with a declared
expected count was observed exactly that often (cases without a declared
count are never checked); on failure the returned error is the single
aggregate `Error::Checkpoint` carrying one `(expected, observed)` entry for
every violated expectation. -/
theorem checkpoint_semantics (conn : InnerConnector) :
    (conn.checkpoint = .ok () ↔ ∀ c ∈ conn.cases, ∀ n, c.count = some n → c.seen = n)
    ∧ (violatedCases conn.cases ≠ [] →
        conn.checkpoint = .error (.checkpoint
          ((violatedCases conn.cases).map (fun c => (c.count.getD 0, c.seen)))))
    ∧ (∀ entries, conn.checkpoint = .error (.checkpoint entries) →
        entries = (violatedCases conn.cases).map (fun c => (c.count.getD 0, c.seen))) := by
  have hEq := filterMap_checkpoint_eq conn.cases
  have hok : conn.checkpoint = .ok () ↔ violatedCases conn.cases = [] := by
    unfold InnerConnector.checkpoint
    rw [hEq]
    by_cases hv : violatedCases conn.cases = []
    · simp [hv]
    · have hne : (violatedCases conn.cases).map (fun c => (c.count.getD 0, c.seen)) ≠ [] := by
        simpa [List.map_eq_nil_iff] using hv
      have hbe : ((violatedCases conn.cases).map
          (fun c => (c.count.getD 0, c.seen))).isEmpty = false := by
        rw [← Bool.not_eq_true, List.isEmpty_iff]
        exact hne
      simp [hbe, hv]
  refine ⟨?_, ?_, ?_⟩
  · rw [hok]
    unfold violatedCases
    rw [List.filter_eq_nil_iff]
    constructor
    · intro hall c hc n hn
      have := hall c hc
      simp only [hn, decide_eq_true_eq] at this
      by_contra hne
      exact this (by simpa using hne)
    · intro hall c hc
      cases hn : c.count with
      | none => simp
      | some n => simp [hall c hc n hn]
  · intro hv
    unfold InnerConnector.checkpoint
    rw [hEq]
    have hne : (violatedCases conn.cases).map (fun c => (c.count.getD 0, c.seen)) ≠ [] := by
      simpa [List.map_eq_nil_iff] using hv
    have hbe : ((violatedCases conn.cases).map
        (fun c => (c.count.getD 0, c.seen))).isEmpty = false := by
      rw [← Bool.not_eq_true, List.isEmpty_iff]
      exact hne
    simp [hbe]
  · intro entries he
    unfold InnerConnector.checkpoint at he
    rw [hEq] at he
    by_cases hbe : ((violatedCases conn.cases).map
        (fun c => (c.count.getD 0, c.seen))).isEmpty
    · simp [hbe] at he
    · simp only [Bool.not_eq_true] at hbe
      simp only [hbe, Bool.false_eq_true, if_false, Except.error.injEq,
        Err.checkpoint.injEq] at he
      exact he.symm

/-- Witness for C5: one case expected twice but observed zero times; the
checkpoint reports the single aggregate entry `(2, 0)`. -/
theorem checkpoint_semantics_witness :
    InnerConnector.checkpoint
      ⟨Level.missing, [Case.new (fun _ => .ok .isMatch)
        (fun _ => .ok ⟨200, [], "OK"⟩) (some 2)]⟩
      = .error (.checkpoint [(2, 0)]) :=
  (checkpoint_semantics
    ⟨Level.missing, [Case.new (fun _ => .ok .isMatch)
      (fun _ => .ok ⟨200, [], "OK"⟩) (some 2)]⟩).2.1
    (by simp [violatedCases, Case.new])

/-! ## Buffered read delivery (C10) -/

/-- **C10**: in the `ResponseBuffered` state with cursor `pos ≤ length`,
every read returns `min(remaining, length - pos)` bytes taken from positions
`pos..pos+size` of the buffered data, advances the cursor by exactly that
amount (never past the end), and once the cursor is at the end each read
returns a clean zero-byte success rather than an error or a suspension. -/
theorem read_buffered_delivery (s : MockStream) (d : List Nat) (pos remaining : Nat)
    (hres : s.res = .data d pos) (hpos : pos ≤ d.length) :
    ∃ bytes,
      s.poll_read remaining =
        ({ s with res := .data d (pos + min remaining (d.length - pos)),
                  waker := some () },
         .ready (.ok bytes))
      ∧ bytes.length = min remaining (d.length - pos)
      ∧ (∀ k, k < min remaining (d.length - pos) → bytes[k]? = d[pos + k]?)
      ∧ pos + min remaining (d.length - pos) ≤ d.length
      ∧ (pos = d.length →
          bytes = [] ∧ pos + min remaining (d.length - pos) = pos) := by
  refine ⟨(d.drop pos).take (min remaining (d.length - pos)), ?_, ?_, ?_, ?_, ?_⟩
  · unfold MockStream.poll_read
    rw [hres]
    rfl
  · simp only [List.length_take, List.length_drop]
    omega
  · intro k hk
    rw [List.getElem?_take, if_pos hk, List.getElem?_drop]
  · omega
  · intro hend
    subst hend
    simp

/-- Witness for C10: a three-byte buffer read from cursor `1` with room for
five bytes. -/
theorem read_buffered_delivery_witness :
    ∃ bytes,
      MockStream.poll_read
        ⟨.data [1, 2, 3] 1, [], Option.none, "u", ⟨Level.missing, []⟩⟩ 5 =
        ({ (⟨.data [1, 2, 3] 1, [], Option.none, "u",
             ⟨Level.missing, []⟩⟩ : MockStream) with
            res := .data [1, 2, 3] (1 + min 5 (([1, 2, 3] : List Nat).length - 1)),
            waker := some () },
         .ready (.ok bytes))
      ∧ bytes.length = min 5 (([1, 2, 3] : List Nat).length - 1)
      ∧ (∀ k, k < min 5 (([1, 2, 3] : List Nat).length - 1) →
          bytes[k]? = ([1, 2, 3] : List Nat)[1 + k]?)
      ∧ 1 + min 5 (([1, 2, 3] : List Nat).length - 1) ≤ ([1, 2, 3] : List Nat).length
      ∧ (1 = ([1, 2, 3] : List Nat).length →
          bytes = [] ∧ 1 + min 5 (([1, 2, 3] : List Nat).length - 1) = 1) :=
  read_buffered_delivery
    ⟨.data [1, 2, 3] 1, [], Option.none, "u", ⟨Level.missing, []⟩⟩
    [1, 2, 3] 1 5 rfl (by simp)

/-! ## Transport write-side behaviour (C2, C3)

Concrete oracles used by the transport theorems: `parseIncompleteOracle`
mirrors `httparse` returning `Status::Partial` on a three-byte prefix of a
request line; `parseErrorOracle` mirrors `httparse` rejecting a NUL byte;
`utf8Oracle` decodes the empty byte string; `mergeUriOracle` concatenates. -/

def parseIncompleteOracle : List Nat → Except String (ParseStatus × HRequest) :=
  fun bytes =>
    if bytes = [71, 69, 84] then .ok (.incomplete, ⟨some "GET", Option.none, []⟩)
    else .error "unexpected input"

def parseErrorOracle : List Nat → Except String (ParseStatus × HRequest) :=
  fun _ => .error "invalid token"

def utf8Oracle : List Nat → Except String String :=
  fun bytes => if bytes = [] then .ok "" else .error "invalid utf-8"

def mergeUriOracle : String → String → Except String String :=
  fun u p => .ok (u ++ p)

def oneCaseConnector : InnerConnector :=
  ⟨Level.missing,
   [Case.new (fun _ => .ok .isMatch) (fun _ => .ok ⟨200, [], "OK"⟩) Option.none]⟩

/-- General write-side behaviour on a partial parse: `poll_write` still
invokes the connector's dispatch, with an empty body slice: if the dispatch
succeeds the transport stores the pending response (`ResponsePending`) and
reports the chunk written, and if the dispatch fails the write fails with
the dispatch error; in neither case does the transport simply remain idle in
`AwaitingRequest`. -/
theorem write_incomplete_still_dispatches
    (parse : List Nat → Except String (ParseStatus × HRequest))
    (utf8 : List Nat → Except String String)
    (mergeUri : String → String → Except String String)
    (s : MockStream) (buf : List Nat) (req : HRequest)
    (hparse : parse (s.req_data ++ buf) = .ok (.incomplete, req)) :
    (∀ conn' f,
      InnerConnector.matches utf8 mergeUri s.connector req [] s.uri = (conn', .ok f) →
      MockStream.poll_write parse utf8 mergeUri s buf =
        ({ s with req_data := s.req_data ++ buf, connector := conn', res := .fut f,
                  waker := Option.none },
         .ok buf.length))
    ∧ (∀ conn' e,
      InnerConnector.matches utf8 mergeUri s.connector req [] s.uri = (conn', .error e) →
      MockStream.poll_write parse utf8 mergeUri s buf =
        ({ s with req_data := s.req_data ++ buf, connector := conn' },
         .error (into_connect_error e))) := by
  constructor
  · intro conn' f hm
    unfold MockStream.poll_write
    simp only [hparse, hm]
  · intro conn' e hm
    unfold MockStream.poll_write
    simp only [hparse, hm]

/-- Concrete instance of the partial-parse write behaviour: the partial
prefix still dispatches and lands in the `Fut` state with the counter
bumped. -/
theorem write_incomplete_still_dispatches_witness :
    MockStream.poll_write parseIncompleteOracle utf8Oracle mergeUriOracle
      (MockStream.new oneCaseConnector "http://x.test/") [71, 69, 84] =
      ({ MockStream.new oneCaseConnector "http://x.test/" with
          req_data :=
            (MockStream.new oneCaseConnector "http://x.test/").req_data ++ [71, 69, 84],
          connector := ⟨Level.missing,
            [{ Case.new (fun _ => .ok .isMatch) (fun _ => .ok ⟨200, [], "OK"⟩)
                Option.none with seen := 1 }]⟩,
          res := .fut (.ok ⟨200, [], "OK"⟩), waker := Option.none },
       .ok [71, 69, 84].length) :=
  (write_incomplete_still_dispatches parseIncompleteOracle utf8Oracle mergeUriOracle
    (MockStream.new oneCaseConnector "http://x.test/") [71, 69, 84]
    ⟨some "GET", Option.none, []⟩ rfl).1
    ⟨Level.missing,
     [{ Case.new (fun _ => .ok .isMatch) (fun _ => .ok ⟨200, [], "OK"⟩)
         Option.none with seen := 1 }]⟩
    (.ok ⟨200, [], "OK"⟩) rfl

/-- **C2**: evaluating `poll_write` at the failing input.  With the
accumulated bytes parsing as `Status::Partial`, the write nevertheless
succeeds, the transport leaves `AwaitingRequest` for the `Fut`
(ResponsePending) state, and the matching case's observed counter is
incremented — dispatch ran on the partial frame, contrary to the claim and
to the spec's transport design. -/
theorem write_incomplete_counterexample :
    parseIncompleteOracle
        ((MockStream.new oneCaseConnector "http://x.test/").req_data ++ [71, 69, 84])
      = .ok (.incomplete, ⟨some "GET", Option.none, []⟩)
    ∧ (MockStream.poll_write parseIncompleteOracle utf8Oracle mergeUriOracle
        (MockStream.new oneCaseConnector "http://x.test/") [71, 69, 84]).2 = .ok 3
    ∧ (MockStream.poll_write parseIncompleteOracle utf8Oracle mergeUriOracle
        (MockStream.new oneCaseConnector "http://x.test/") [71, 69, 84]).1.res
        = ResponseState.fut (.ok ⟨200, [], "OK"⟩)
    ∧ ((MockStream.poll_write parseIncompleteOracle utf8Oracle mergeUriOracle
        (MockStream.new oneCaseConnector "http://x.test/") [71, 69, 84]).1.connector.cases.map
          (fun c => c.seen)) = [1]
    ∧ (oneCaseConnector.cases.map (fun c => c.seen)) = [0] :=
  ⟨rfl, rfl, rfl, rfl, rfl⟩

/-- A parse oracle for a request frame arriving in two writes: the first
three bytes (`"GET"`) parse as `Status::Partial`; the full nine-byte frame
(`"GET /\r\n\r\n"`-shaped) parses complete with the body at offset 9. -/
def parseTwoWriteOracle : List Nat → Except String (ParseStatus × HRequest) :=
  fun bytes =>
    if bytes = [71, 69, 84] then .ok (.incomplete, ⟨some "GET", Option.none, []⟩)
    else if bytes = [71, 69, 84, 32, 47, 13, 10, 13, 10] then
      .ok (.complete 9, ⟨some "GET", some "/", []⟩)
    else .error "unexpected input"

/-- A connector with one always-matching case declared `times(1)`. -/
def timesOneConnector : InnerConnector :=
  ⟨Level.missing,
   [Case.new (fun _ => .ok .isMatch) (fun _ => .ok ⟨200, [], "OK"⟩) (some 1)]⟩

/-- The user-visible damage of dispatching on a partial parse: one logical
request whose frame arrives in two writes is dispatched twice — the matched
case's observed counter reaches 2 — so a checkpoint declared `times(1)`
fails with `expected 1, got 2`, although exactly one request was sent. -/
theorem write_incomplete_double_count :
    ((MockStream.poll_write parseTwoWriteOracle utf8Oracle mergeUriOracle
        (MockStream.poll_write parseTwoWriteOracle utf8Oracle mergeUriOracle
          (MockStream.new timesOneConnector "http://x.test/") [71, 69, 84]).1
        [32, 47, 13, 10, 13, 10]).1.connector.cases.map (fun c => c.seen)) = [2]
    ∧ InnerConnector.checkpoint
        (MockStream.poll_write parseTwoWriteOracle utf8Oracle mergeUriOracle
          (MockStream.poll_write parseTwoWriteOracle utf8Oracle mergeUriOracle
            (MockStream.new timesOneConnector "http://x.test/") [71, 69, 84]).1
          [32, 47, 13, 10, 13, 10]).1.connector
        = .error (.checkpoint [(1, 2)]) :=
  ⟨rfl, rfl⟩

/-- **C3 (amended)**: malformed accumulated bytes make `poll_write` fail with
a connection-refused transport error wrapping the parse error; the transport
state (other than the grown buffer) is unchanged, and no error response is
made available to the read side — a read polled while the response state is
still `New` stays pending. -/
theorem malformed_write_error_write_side
    (parse : List Nat → Except String (ParseStatus × HRequest))
    (utf8 : List Nat → Except String String)
    (mergeUri : String → String → Except String String)
    (s : MockStream) (buf : List Nat) (e : String)
    (hparse : parse (s.req_data ++ buf) = .error e) :
    MockStream.poll_write parse utf8 mergeUri s buf =
      ({ s with req_data := s.req_data ++ buf },
       .error (into_connect_error (.httparse e)))
    ∧ (∀ remaining, s.res = .new →
        (MockStream.poll_read { s with req_data := s.req_data ++ buf } remaining).2
          = .pending) := by
  constructor
  · unfold MockStream.poll_write
    simp only [hparse]
  · intro remaining hres
    unfold MockStream.poll_read
    simp [hres]

/-- Witness for C3 (amended): a NUL byte fails the write with the wrapped
parse error and the subsequent read suspends. -/
theorem malformed_write_error_write_side_witness :
    MockStream.poll_write parseErrorOracle utf8Oracle mergeUriOracle
      (MockStream.new oneCaseConnector "http://x.test/") [0] =
      ({ MockStream.new oneCaseConnector "http://x.test/" with
          req_data :=
            (MockStream.new oneCaseConnector "http://x.test/").req_data ++ [0] },
       .error (into_connect_error (.httparse "invalid token")))
    ∧ (MockStream.poll_read
        { MockStream.new oneCaseConnector "http://x.test/" with
          req_data :=
            (MockStream.new oneCaseConnector "http://x.test/").req_data ++ [0] } 16).2
        = .pending :=
  ⟨(malformed_write_error_write_side parseErrorOracle utf8Oracle mergeUriOracle
      (MockStream.new oneCaseConnector "http://x.test/") [0] "invalid token" rfl).1,
   (malformed_write_error_write_side parseErrorOracle utf8Oracle mergeUriOracle
      (MockStream.new oneCaseConnector "http://x.test/") [0] "invalid token" rfl).2
      16 rfl⟩

/-- **C3 counterexample**: on unparseable bytes the failure is write-side
only — `poll_write` returns a connection-refused `io::Error`, the response
state stays `New` (no HTTP error response is buffered for the reader), and a
read afterwards is pending, i.e. suspended, not a delivered error response. -/
theorem malformed_write_counterexample :
    MockStream.poll_write parseErrorOracle utf8Oracle mergeUriOracle
      (MockStream.new oneCaseConnector "http://x.test/") [0] =
      ({ MockStream.new oneCaseConnector "http://x.test/" with req_data := [0] },
       .error (.connectionRefused (.httparse "invalid token")))
    ∧ (MockStream.poll_write parseErrorOracle utf8Oracle mergeUriOracle
        (MockStream.new oneCaseConnector "http://x.test/") [0]).1.res
        = ResponseState.new
    ∧ (MockStream.poll_read
        (MockStream.poll_write parseErrorOracle utf8Oracle mergeUriOracle
          (MockStream.new oneCaseConnector "http://x.test/") [0]).1 16).2
        = Poll.pending :=
  ⟨rfl, rfl, rfl⟩

end MockHttp
